import Mathlib

/-!
Verification of the PII redaction engine in `BedRock_WIP_12072025.py`.

Python strings are modelled as `List Char`; Python scalar cell values
(strings, numbers, `None`, `NaN`) as the inductive type `Value`.  External
library calls are modelled as follows: `json.loads` is implemented as a
JSON parser (`jsonLoads`, integer numbers only, no surrogate-pair
`\uXXXX` escapes — no claim depends on those), `pd.to_datetime` is an
oracle parameter `parse : Value → Option (Nat × Nat)` (month, day),
and the Bedrock network call is an oracle `List Char → Except Unit (List Char)`
whose `Except.error` models a raised exception.
-/

set_option autoImplicit false

namespace AIR

/-! ### Basic string helpers (Python `str` operations on `List Char`) -/

/-- The character left brace. -/
def lbrace : Char := Char.ofNat 123

/-- The character right brace. -/
def rbrace : Char := Char.ofNat 125

/-- Python `str.strip()`: remove leading and trailing whitespace. -/
def pyStrip (l : List Char) : List Char :=
  ((l.dropWhile Char.isWhitespace).reverse.dropWhile Char.isWhitespace).reverse

/-- Python `str.lower()` (ASCII case folding). -/
def toLowerL (l : List Char) : List Char := l.map Char.toLower

/-- Python `str.split(sep)` for a single-character separator. -/
def splitOnChar (sep : Char) : List Char → List (List Char)
  | [] => [[]]
  | c :: rest =>
    match splitOnChar sep rest with
    | [] => if c = sep then [[], []] else [[c]]
    | h :: t => if c = sep then [] :: h :: t else (c :: h) :: t

/-- Python `sep.join(parts)` for the one-character separator `sep`. -/
def joinChar (sep : Char) : List (List Char) → List Char
  | [] => []
  | [x] => x
  | x :: xs => x ++ sep :: joinChar sep xs

/-- Python `pat in s` substring test. -/
def containsSub (pat : List Char) : List Char → Bool
  | [] => pat.isEmpty
  | c :: rest => pat.isPrefixOf (c :: rest) || containsSub pat rest

/-- Python `s.replace(pat, rep)`: left-to-right, non-overlapping.  The
fuel argument is structural bookkeeping only: every iteration consumes
at least one character, so starting the fuel at the input length (as
`replaceAll` does) never exhausts it early. -/
def replaceAllFuel : Nat → List Char → List Char → List Char → List Char
  | 0, _, _, l => l
  | fuel + 1, pat, rep, l =>
    match l with
    | [] => []
    | c :: rest =>
      if pat ≠ [] ∧ pat.isPrefixOf (c :: rest) then
        rep ++ replaceAllFuel fuel pat rep (List.drop pat.length (c :: rest))
      else c :: replaceAllFuel fuel pat rep rest

def replaceAll (pat rep l : List Char) : List Char := replaceAllFuel l.length pat rep l

/-- Python `s.find(c)`: index of the first occurrence. -/
def findIdxOf? (c : Char) (l : List Char) : Option Nat :=
  l.findIdx? (fun x => x = c)

/-- Python `s.rfind(c)`: index of the last occurrence. -/
def rfindIdxOf? (c : Char) (l : List Char) : Option Nat :=
  (l.reverse.findIdx? (fun x => x = c)).map (fun i => l.length - 1 - i)

/-- The last `n` elements, Python `l[-n:]` (for `l.length ≥ n`). -/
def lastN (n : Nat) (l : List Char) : List Char := l.drop (l.length - n)

/-! ### Scalar cell values -/

/-- A Python scalar cell value as it appears in a DataFrame column:
a string, an integer, `None`, or `NaN`. -/
inductive Value where
  | vStr (s : List Char)
  | vInt (n : Int)
  | vNone
  | vNan
deriving DecidableEq, Repr

/-- Python `str(v)`. -/
def pyStr : Value → List Char
  | .vStr s => s
  | .vInt n => (toString n).toList
  | .vNone => "None".toList
  | .vNan => "nan".toList

/-- Python `isinstance(v, str)`. -/
def isStrV : Value → Bool
  | .vStr _ => true
  | _ => false

/-! ### Field maskers (lines 12-44 of the source) -/

/-- `mask_email` (source lines 12-17): non-strings and strings without
an at-sign pass through; otherwise split on the first at-sign, keep the
first local character and append three asterisks when the local part has
length greater than one, else use a bare asterisk; domain kept verbatim. -/
def mask_email (v : Value) : Value :=
  match v with
  | .vStr s =>
    if s.any (fun c => c == '@') then
      let name := s.takeWhile (fun c => c ≠ '@')
      let domain := (s.dropWhile (fun c => c ≠ '@')).drop 1
      let masked_name :=
        if name.length > 1 then name.take 1 ++ "***".toList else ['*']
      .vStr (masked_name ++ '@' :: domain)
    else .vStr s
  | w => w

/-- `mask_phone` (source lines 19-21): coerce the value to its string
rendering, strip non-digits, keep the last four digits behind a fixed
mask, or return the placeholder when fewer than four digits remain. -/
def mask_phone (v : Value) : Value :=
  let digits := (pyStr v).filter Char.isDigit
  if 4 ≤ digits.length then .vStr ("***-***-".toList ++ lastN 4 digits)
  else .vStr "[REDACTED]".toList

/-- `mask_address` (source lines 23-27): non-strings pass through;
with more than one comma segment, mask the first segment and keep the
rest (joined and stripped); otherwise the address placeholder. -/
def mask_address (v : Value) : Value :=
  match v with
  | .vStr s =>
    let sections := splitOnChar ',' s
    if sections.length > 1 then
      .vStr ("***, ".toList ++ pyStrip (joinChar ',' sections.tail))
    else .vStr "[REDACTED ADDRESS]".toList
  | w => w

/-- `mask_dob` (source lines 29-34): `pd.to_datetime(_, errors='coerce')`
is the oracle `parse`, returning month and day on success; render
`****-MM-DD` on success, the DOB placeholder otherwise. -/
def pad2 (n : Nat) : List Char :=
  if n < 10 then '0' :: (toString n).toList else (toString n).toList

def mask_dob (parse : Value → Option (Nat × Nat)) (v : Value) : Value :=
  match parse v with
  | some (m, d) => .vStr ("****-".toList ++ pad2 m ++ '-' :: pad2 d)
  | none => .vStr "[REDACTED DOB]".toList

/-- `mask_ip` (source lines 36-40): non-strings pass through; with
exactly four dot segments mask the first two octets, else placeholder. -/
def mask_ip (v : Value) : Value :=
  match v with
  | .vStr s =>
    match splitOnChar '.' s with
    | [_, _, c, d] => .vStr ("***.***.".toList ++ c ++ '.' :: d)
    | _ => .vStr "[REDACTED IP]".toList
  | w => w

/-- `mask_credit_card` (source lines 42-44): like `mask_phone` with the
credit-card mask and placeholder. -/
def mask_credit_card (v : Value) : Value :=
  let digits := (pyStr v).filter Char.isDigit
  if 4 ≤ digits.length then .vStr ("**** **** **** ".toList ++ lastN 4 digits)
  else .vStr "[REDACTED CC]".toList

/-- The first/last-name lambda of `redact_pii` (source line 90): the cell
is first coerced by `astype(str)`, then the first character is kept and
three asterisks appended when the string is nonempty. -/
def mask_name (v : Value) : Value :=
  let s := pyStr v
  if s.length > 0 then .vStr (s.take 1 ++ "***".toList) else .vStr s

/-! ### Text pattern redactor: `redact_ssn_in_text` (source lines 46-49)

The Python regex is `\b\d{3}-\d{2}-\d{4}\b` with replacement
`[REDACTED SSN]`.  `re.sub` scans the original text left to right,
replacing non-overlapping leftmost matches; boundaries always refer to
the original text.  Since the pattern starts and ends with a digit
(a word character), the leading boundary holds exactly when the
preceding character is absent or not a word character, and the trailing
boundary exactly when the following character is absent or not a word
character. -/

/-- Python's `\w` on ASCII: letters, digits, underscore. -/
def isWordChar (c : Char) : Bool := c.isAlphanum || c = '_'

/-- Consume one digit. -/
def expectDigit : List Char → Option (List Char)
  | c :: r => if c.isDigit then some r else none
  | [] => none

/-- Consume one dash. -/
def expectDash : List Char → Option (List Char)
  | c :: r => if c = '-' then some r else none
  | [] => none

/-- Consume the eleven characters of the SSN shape `ddd-dd-dddd`,
returning the remainder. -/
def dropSSN? (L : List Char) : Option (List Char) :=
  (expectDigit L).bind fun L1 =>
  (expectDigit L1).bind fun L2 =>
  (expectDigit L2).bind fun L3 =>
  (expectDash L3).bind fun L4 =>
  (expectDigit L4).bind fun L5 =>
  (expectDigit L5).bind fun L6 =>
  (expectDash L6).bind fun L7 =>
  (expectDigit L7).bind fun L8 =>
  (expectDigit L8).bind fun L9 =>
  (expectDigit L9).bind fun L10 =>
  expectDigit L10

/-- The trailing word boundary after the final digit of a match. -/
def endBd : List Char → Bool
  | [] => true
  | c :: _ => !isWordChar c

/-- The regex matches at the head of `L` (boundary before the head is
tracked separately by the caller). -/
def matchSSN (L : List Char) : Bool :=
  match dropSSN? L with
  | some R => endBd R
  | none => false

/-- The replacement token. -/
def redactTok : List Char := "[REDACTED SSN]".toList

/-- The scanner of `re.sub(r'\b\d{3}-\d{2}-\d{4}\b', '[REDACTED SSN]', text)`:
`b` records whether a word boundary holds before the current position
(true at the start of the text, and thereafter exactly when the previous
original character is not a word character).  After a replacement the
scan resumes past the eleven matched characters — `(c :: rest).drop 11`,
which equals the remainder returned by `dropSSN?`. -/
def redactB : Bool → List Char → List Char
  | _, [] => []
  | b, c :: rest =>
    match dropSSN? (c :: rest) with
    | some R =>
      if b && endBd R then redactTok ++ redactB false ((c :: rest).drop 11)
      else c :: redactB (!isWordChar c) rest
    | none => c :: redactB (!isWordChar c) rest
termination_by _ l => l.length
decreasing_by
  all_goals simp only [List.length_drop, List.length_cons]
  all_goals omega

/-- `redact_ssn_in_text` (source lines 46-49): non-strings pass through,
strings are scrubbed by the regex substitution. -/
def redact_ssn_in_text (v : Value) : Value :=
  match v with
  | .vStr s => .vStr (redactB true s)
  | w => w

/-! ### LLM redaction client: `redact_with_bedrock` (source lines 52-82) -/

/-- The fixed instruction prompt (source lines 56-60) with the target
text spliced in place of the f-string hole. -/
def bedrockPrompt (text : List Char) : List Char :=
  ("Redact all personally identifiable information (PII) such as names, SSNs, phone numbers, emails, credit card numbers, etc. from this text:\n\nText: \"\"\"").toList
    ++ text ++ ("\"\"\"\n\nRedacted Text:").toList

/-- `redact_with_bedrock` (source lines 52-82).  The oracle maps the
prompt to the completion extracted from the service response; an
`Except.error` models any raised exception (network, parsing, missing
key).  The returned boolean records whether the service was invoked. -/
def redact_with_bedrock (oracle : List Char → Except Unit (List Char))
    (v : Value) : Value × Bool :=
  match v with
  | .vStr s =>
    if pyStrip s = [] then (.vStr s, false)
    else
      match oracle (bedrockPrompt s) with
      | .ok completion => (.vStr (pyStrip completion), true)
      | .error _ => (.vStr s, true)
  | w => (w, false)

/-! ### Column classifier and dispatcher: `redact_pii` (source lines 84-107) -/

/-- A DataFrame: an ordered sequence of named columns, each an ordered
sequence of scalar cells. -/
def Table : Type := List (List Char × List Value)

/-- The per-cell masking function selected from the lowercased column
name (the branch structure of source lines 86-106). -/
def maskCell (parse : Value → Option (Nat × Nat))
    (oracle : List Char → Except Unit (List Char))
    (colLower : List Char) : Value → Value :=
  if colLower = "password".toList then fun _ => .vStr "[REDACTED]".toList
  else if colLower = "first_name".toList ∨ colLower = "last_name".toList then mask_name
  else if colLower = "email".toList then mask_email
  else if colLower = "phone".toList then mask_phone
  else if colLower = "address".toList then mask_address
  else if colLower = "dob".toList then mask_dob parse
  else if colLower = "ip_address".toList then mask_ip
  else if colLower = "credit_card_number".toList then mask_credit_card
  else if colLower = "notes".toList ∨ colLower = "comments".toList then
    fun v => (redact_with_bedrock oracle v).1
  else redact_ssn_in_text

/-- One loop iteration of `redact_pii`: `df[col] = df[col].apply(f)`
replaces the cells of every column labelled `col`. -/
def redactStep (parse : Value → Option (Nat × Nat))
    (oracle : List Char → Except Unit (List Char))
    (df : Table) (col : List Char) : Table :=
  df.map (fun e =>
    if e.1 = col then (e.1, e.2.map (maskCell parse oracle (toLowerL col))) else e)

/-- `redact_pii` (source lines 84-107): loop over `df.columns` applying
the selected masker column-wise. -/
def redact_pii (parse : Value → Option (Nat × Nat))
    (oracle : List Char → Except Unit (List Char)) (df : Table) : Table :=
  (df.map Prod.fst).foldl (redactStep parse oracle) df

/-! ### Heap model for the in-place pass (claim about mutation)

`redact_pii` receives a reference to a DataFrame and mutates it through
that reference (`df[col] = ...`), then returns the same reference
(source line 107); the caller rebinds `df` to that same reference
(source line 130).  The heap maps references to tables. -/

/-- The heap. -/
def Store : Type := Nat → Option Table

/-- Apply `f` to the table held at reference `r`. -/
def storeMap (r : Nat) (f : Table → Table) (st : Store) : Store :=
  fun r' => if r' = r then (st r').map f else st r'

/-- `redact_pii` on the heap: each `df[col] = df[col].apply(f)` reads the
table at `r`, updates the column, and writes it back at `r`; the
function value `return df` is the unchanged reference. -/
def redact_pii_ref (parse : Value → Option (Nat × Nat))
    (oracle : List Char → Except Unit (List Char))
    (r : Nat) (st : Store) : Nat × Store :=
  match st r with
  | none => (r, st)
  | some df =>
    (r, (df.map Prod.fst).foldl
      (fun s col => storeMap r (fun t => redactStep parse oracle t col) s) st)

/-! ### JSON values and `json.loads`

The model restricts JSON numbers to integers and does not combine
`\uXXXX` surrogate pairs; no claim involves non-integer numbers or
astral-plane escapes.  Objects keep their members in parse order
(duplicates included); lookups take the last occurrence, matching the
last-wins behaviour of `json.loads` building a `dict`. -/

inductive Json where
  | null
  | bool (b : Bool)
  | num (n : Int)
  | str (s : List Char)
  | arr (elems : List Json)
  | obj (members : List (List Char × Json))

/-- JSON whitespace (RFC 8259 / CPython `json`). -/
def jsonWs (c : Char) : Bool := c = ' ' || c = '\t' || c = '\n' || c = '\r'

def skipWs (l : List Char) : List Char := l.dropWhile jsonWs

/-- Value of a hexadecimal digit. -/
def hexVal? (c : Char) : Option Nat :=
  if c.isDigit then some (c.toNat - 48)
  else if 'a' ≤ c ∧ c ≤ 'f' then some (c.toNat - 87)
  else if 'A' ≤ c ∧ c ≤ 'F' then some (c.toNat - 55)
  else none

/-- Parse the body of a JSON string after the opening quote, returning
the decoded content and the remainder after the closing quote.  Fuel is
structural bookkeeping (each step consumes at least one character). -/
def parseStringRest : Nat → List Char → Option (List Char × List Char)
  | 0, _ => none
  | _ + 1, [] => none
  | fuel + 1, c :: rest =>
    if c = '"' then some ([], rest)
    else if c = '\\' then
      match rest with
      | [] => none
      | e :: rest2 =>
        if e = '"' then (parseStringRest fuel rest2).map (fun p => ('"' :: p.1, p.2))
        else if e = '\\' then (parseStringRest fuel rest2).map (fun p => ('\\' :: p.1, p.2))
        else if e = '/' then (parseStringRest fuel rest2).map (fun p => ('/' :: p.1, p.2))
        else if e = 'b' then (parseStringRest fuel rest2).map (fun p => (Char.ofNat 8 :: p.1, p.2))
        else if e = 'f' then (parseStringRest fuel rest2).map (fun p => (Char.ofNat 12 :: p.1, p.2))
        else if e = 'n' then (parseStringRest fuel rest2).map (fun p => ('\n' :: p.1, p.2))
        else if e = 'r' then (parseStringRest fuel rest2).map (fun p => ('\r' :: p.1, p.2))
        else if e = 't' then (parseStringRest fuel rest2).map (fun p => ('\t' :: p.1, p.2))
        else if e = 'u' then
          match rest2 with
          | h1 :: h2 :: h3 :: h4 :: rest3 =>
            match hexVal? h1, hexVal? h2, hexVal? h3, hexVal? h4 with
            | some a, some b, some c3, some d =>
              let code := ((a * 16 + b) * 16 + c3) * 16 + d
              if code < 55296 then
                (parseStringRest fuel rest3).map (fun p => (Char.ofNat code :: p.1, p.2))
              else none
            | _, _, _, _ => none
          | _ => none
        else none
    else if c.toNat < 32 then none
    else (parseStringRest fuel rest).map (fun p => (c :: p.1, p.2))

/-- Parse an optionally-signed decimal integer. -/
def parseInt? (L : List Char) : Option (Int × List Char) :=
  let (neg, L1) := match L with
    | '-' :: r => (true, r)
    | _ => (false, L)
  let ds := L1.takeWhile Char.isDigit
  let rest := L1.dropWhile Char.isDigit
  if ds = [] then none
  else
    let n : Nat := ds.foldl (fun acc c => acc * 10 + (c.toNat - 48)) 0
    match rest with
    | '.' :: _ => none
    | 'e' :: _ => none
    | 'E' :: _ => none
    | _ => some (if neg then -(n : Int) else (n : Int), rest)

mutual

/-- Parse one JSON value (leading whitespace allowed), with fuel. -/
def parseValue : Nat → List Char → Option (Json × List Char)
  | 0, _ => none
  | fuel + 1, L =>
    match skipWs L with
    | [] => none
    | c :: rest =>
      if c = '"' then (parseStringRest (rest.length + 1) rest).map (fun p => (Json.str p.1, p.2))
      else if c = lbrace then
        match skipWs rest with
        | d :: rest2 =>
          if d = rbrace then some (Json.obj [], rest2)
          else (parseMembers fuel (d :: rest2)).map (fun p => (Json.obj p.1, p.2))
        | [] => none
      else if c = '[' then
        match skipWs rest with
        | d :: rest2 =>
          if d = ']' then some (Json.arr [], rest2)
          else (parseElems fuel (d :: rest2)).map (fun p => (Json.arr p.1, p.2))
        | [] => none
      else if c = 't' then
        match rest with
        | 'r' :: 'u' :: 'e' :: r => some (Json.bool true, r)
        | _ => none
      else if c = 'f' then
        match rest with
        | 'a' :: 'l' :: 's' :: 'e' :: r => some (Json.bool false, r)
        | _ => none
      else if c = 'n' then
        match rest with
        | 'u' :: 'l' :: 'l' :: r => some (Json.null, r)
        | _ => none
      else (parseInt? (c :: rest)).map (fun p => (Json.num p.1, p.2))

/-- Parse the members of an object, positioned at the first key. -/
def parseMembers : Nat → List Char → Option (List (List Char × Json) × List Char)
  | 0, _ => none
  | fuel + 1, L =>
    match skipWs L with
    | '"' :: rest =>
      (parseStringRest (rest.length + 1) rest).bind fun (key, r1) =>
      match skipWs r1 with
      | ':' :: r2 =>
        (parseValue fuel r2).bind fun (v, r3) =>
        match skipWs r3 with
        | ',' :: r4 =>
          (parseMembers fuel r4).map (fun p => ((key, v) :: p.1, p.2))
        | d :: r4 =>
          if d = rbrace then some ([(key, v)], r4) else none
        | [] => none
      | _ => none
    | _ => none

/-- Parse the elements of an array, positioned at the first element. -/
def parseElems : Nat → List Char → Option (List Json × List Char)
  | 0, _ => none
  | fuel + 1, L =>
    (parseValue fuel L).bind fun (v, r1) =>
    match skipWs r1 with
    | ',' :: r2 => (parseElems fuel r2).map (fun p => (v :: p.1, p.2))
    | ']' :: r2 => some ([v], r2)
    | _ => none

end

/-- `json.loads`: parse a single JSON document; trailing whitespace
allowed, trailing garbage rejected. -/
def jsonLoads (s : List Char) : Option Json :=
  match parseValue (s.length + 1) s with
  | some (v, rest) => if skipWs rest = [] then some v else none
  | none => none

/-! ### Tolerant JSON extraction: `clean_json_response` (source lines 181-202) -/

/-- Stage two of `clean_json_response`: slice from the first left brace
to the last right brace (inclusive) and normalize escaped quotes and
escaped newlines; `none` when either brace is missing. -/
def sliceNorm (r : List Char) : Option (List Char) :=
  match findIdxOf? lbrace r, rfindIdxOf? rbrace r with
  | some s, some e =>
    some (replaceAll ['\\', 'n'] ['\n'] (replaceAll ['\\', '"'] ['"'] ((r.drop s).take (e + 1 - s))))
  | _, _ => none

/-- `clean_json_response` (source lines 181-202): strip, try a direct
parse, then the brace-slice parse; `none` when no brace pair exists or
both parses fail (every exception path of the source returns `None`). -/
def clean_json_response (response : List Char) : Option Json :=
  let r := pyStrip response
  match jsonLoads r with
  | some v => some v
  | none =>
    match sliceNorm r with
    | some t => jsonLoads t
    | none => none

/-- The hard-coded fallback schema of the caller (source lines 280-287). -/
def default_schema : Json :=
  Json.obj [("pii_columns".toList,
    Json.obj [("NAME".toList, Json.arr []),
              ("DOB".toList, Json.arr []),
              ("PHONE".toList, Json.arr []),
              ("EMAIL".toList, Json.arr [])])]

/-- The caller's substitution (source lines 277-287): extraction result,
or the fixed default schema when extraction yields no result. -/
def pii_analysis_of (raw : List Char) : Json :=
  (clean_json_response raw).getD default_schema

/-! ### Streaming assembly: `process_bedrock_response` (source lines 204-232)

A stream fragment is `Option (List Char)`: `none` models a falsy event
or one without a `chunk` key (skipped by line 213), `some bytes` the
decoded chunk payload.  The whole response is `Option (List (Option (List Char)))`,
`none` modelling a response with no `body` key (line 208). -/

/-- Python `key in j` on a decoded JSON value: key membership for
objects, substring for strings, element equality for arrays, and a
`TypeError` (modelled as `Except.error`) otherwise. -/
def pyIn (key : List Char) (j : Json) : Except Unit Bool :=
  match j with
  | .obj kvs => .ok (kvs.any (fun kv => kv.1 == key))
  | .str s => .ok (containsSub key s)
  | .arr xs => .ok (xs.any (fun x => match x with | .str s => s == key | _ => false))
  | _ => .error ()

/-- Python `j[key]` on a decoded JSON value: last-wins member lookup for
objects (`KeyError` when absent), `TypeError` otherwise. -/
def pyGet (j : Json) (key : List Char) : Except Unit Json :=
  match j with
  | .obj kvs =>
    match kvs.reverse.find? (fun kv => kv.1 == key) with
    | some kv => .ok kv.2
    | none => .error ()
  | _ => .error ()

/-- The condition chain of source lines 219-224 applied to one parsed
chunk: the appended text when the chunk is a content-block delta
carrying a string `text`; `none` both when a condition is false and
when evaluating it raises (either way line 224 does not run, and the
inner `except` keeps the loop going). -/
def deltaText (chunk_data : Json) : Option (List Char) :=
  match pyIn "type".toList chunk_data with
  | .error _ => none
  | .ok false => none
  | .ok true =>
    match pyGet chunk_data "type".toList with
    | .error _ => none
    | .ok ty =>
        match ty with
        | .str tys =>
          if tys = "content_block_delta".toList then
            match pyIn "delta".toList chunk_data with
            | .error _ => none
            | .ok false => none
            | .ok true =>
              match pyGet chunk_data "delta".toList with
              | .error _ => none
              | .ok delta =>
                match pyGet delta "type".toList with
                | .error _ => none
                | .ok dty =>
                  match pyIn "text".toList dty with
                  | .error _ => none
                  | .ok false => none
                  | .ok true =>
                    match pyIn "text".toList delta with
                    | .error _ => none
                    | .ok false => none
                    | .ok true =>
                      match pyGet delta "text".toList with
                      | .error _ => none
                      | .ok (.str t) => some t
                      | .ok _ => none
          else none
        | _ => none

/-- Parse one chunk payload and extract its delta text, `none` on any
per-fragment parse error (inner `except`, line 226). -/
def chunkText (bytes : List Char) : Option (List Char) :=
  (jsonLoads bytes).bind deltaText

/-- One iteration of the accumulation loop (lines 212-227). -/
def stepChunk (acc : List Char) (ev : Option (List Char)) : List Char :=
  match ev with
  | none => acc
  | some bytes =>
    match chunkText bytes with
    | some t => acc ++ t
    | none => acc

/-- `process_bedrock_response` (source lines 204-232). -/
def process_bedrock_response (resp : Option (List (Option (List Char)))) : List Char :=
  match resp with
  | none => []
  | some events => events.foldl stepChunk []

/-! ### Discovery flow of the second `lambda_handler` (source lines 234-306) -/

/-- The body of the handler's HTTP result: a PII analysis on success, or
a structured error carrying the raw accumulated text when it exists. -/
inductive RespBody where
  | success (pii_analysis : Json)
  | failure (errMsg : List Char) (raw_response : Option (List Char))

/-- The handler's result. -/
structure LambdaResp where
  statusCode : Nat
  body : RespBody

/-- The discovery `lambda_handler` (source lines 234-306), with its
collaborators as parameters: `tmpl` the prompt-template read, `contentRes`
the S3 object body, `streamRes` the streaming invocation.  An
`Except.error` carries the exception text; `full_response` exists in
`locals()` only once the stream has been consumed, so earlier failures
report `raw_response = none`. -/
def lambda_handler_discovery
    (tmpl : Except (List Char) (List Char))
    (contentRes : Except (List Char) (List Char))
    (streamRes : Except (List Char) (Option (List (Option (List Char)))))
    : LambdaResp :=
  match tmpl with
  | .error e => ⟨500, .failure e none⟩
  | .ok _ =>
    match contentRes with
    | .error e => ⟨500, .failure e none⟩
    | .ok content =>
      if content = [] then ⟨500, .failure "StopIteration".toList none⟩
      else
        match streamRes with
        | .error e => ⟨500, .failure e none⟩
        | .ok resp =>
          let full_response := process_bedrock_response resp
          if full_response = [] then
            ⟨500, .failure "Empty response from Bedrock".toList (some full_response)⟩
          else ⟨200, .success (pii_analysis_of full_response)⟩

/-! ### Test vectors from the specification -/

/-- The extraction example: a brace-delimited JSON document surrounded
by prose (plain quotes). -/
def exampleRaw1 : List Char :=
  "prefix \x7b\"pii_columns\":\x7b\"EMAIL\":[\"e\"]\x7d\x7d suffix".toList

/-- The extraction example with literally escaped quotes, exercising the
normalization step. -/
def exampleRaw2 : List Char :=
  "prefix \x7b\\\"pii_columns\\\":\x7b\\\"EMAIL\\\":[\\\"e\\\"]\x7d\x7d suffix".toList

/-- The JSON value both extraction examples denote. -/
def examplePII : Json :=
  Json.obj [("pii_columns".toList,
    Json.obj [("EMAIL".toList, Json.arr [Json.str "e".toList])])]

/-- The three stream fragments of the assembly example. -/
def exampleFrag1 : List Char :=
  "\x7b\"type\":\"content_block_delta\",\"delta\":\x7b\"type\":\"text\",\"text\":\"ab\"\x7d\x7d".toList

def exampleFrag2 : List Char := "\x7b\"type\":\"other\"\x7d".toList

def exampleFrag3 : List Char :=
  "\x7b\"type\":\"content_block_delta\",\"delta\":\x7b\"type\":\"text\",\"text\":\"cd\"\x7d\x7d".toList

/-! ## Theorems -/

/-! ### Email masking (claims C1 and C9) -/

theorem takeWhile_until_at (name domain : List Char) (h : '@' ∉ name) :
    (name ++ '@' :: domain).takeWhile (fun c => c ≠ '@') = name := by
  induction name with
  | nil =>
    rw [List.nil_append, List.takeWhile_cons, if_neg]
    show ¬(decide ('@' ≠ '@') = true)
    simp
  | cons a t ih =>
    have ha : a ≠ '@' := fun hEq => h (hEq ▸ List.mem_cons_self a t)
    have ht : '@' ∉ t := fun hm => h (List.mem_cons_of_mem a hm)
    rw [List.cons_append, List.takeWhile_cons,
      if_pos (by show decide (a ≠ '@') = true; simp [ha])]
    exact congrArg (a :: ·) (ih ht)

theorem dropWhile_until_at (name domain : List Char) (h : '@' ∉ name) :
    (name ++ '@' :: domain).dropWhile (fun c => c ≠ '@') = '@' :: domain := by
  induction name with
  | nil =>
    rw [List.nil_append, List.dropWhile_cons, if_neg]
    show ¬(decide ('@' ≠ '@') = true)
    simp
  | cons a t ih =>
    have ha : a ≠ '@' := fun hEq => h (hEq ▸ List.mem_cons_self a t)
    have ht : '@' ∉ t := fun hm => h (List.mem_cons_of_mem a hm)
    rw [List.cons_append, List.dropWhile_cons,
      if_pos (by show decide (a ≠ '@') = true; simp [ha])]
    exact ih ht

/-- `mask_email` on a string that splits as `name ++ "@" ++ domain` with
an at-sign-free local part. -/
theorem mask_email_split (name domain : List Char) (h : '@' ∉ name) :
    mask_email (.vStr (name ++ '@' :: domain)) =
      .vStr ((if 1 < name.length then name.take 1 ++ "***".toList else ['*']) ++ '@' :: domain) := by
  simp only [mask_email]
  rw [takeWhile_until_at name domain h, dropWhile_until_at name domain h]
  simp

/-- Claim C1 is false on the code: for local part `"a"` (non-empty) the
output is `"*@b.com"`, which does not keep the first local character;
and for the empty local part the output is also `"*@b.com"`, not the
identity. -/
theorem c1_counterexample :
    mask_email (.vStr "a@b.com".toList) = .vStr "*@b.com".toList ∧
    Value.vStr "*@b.com".toList ≠ .vStr "a***@b.com".toList ∧
    mask_email (.vStr "@b.com".toList) = .vStr "*@b.com".toList ∧
    Value.vStr "*@b.com".toList ≠ .vStr "@b.com".toList := by
  refine ⟨by decide, by decide, by decide, by decide⟩

/-- Claim C1 (amended): for every string containing an at-sign whose
local part has length at least two, the masked output keeps the first
local character, appends the fixed mask token, and keeps the domain
verbatim; when the local part has length one or zero the local part
becomes a bare asterisk with the domain still verbatim; strings with no
at-sign pass through unchanged. -/
theorem c1_theorem :
    (∀ name domain : List Char, '@' ∉ name → 2 ≤ name.length →
      mask_email (.vStr (name ++ '@' :: domain)) =
        .vStr (name.take 1 ++ "***".toList ++ '@' :: domain)) ∧
    (∀ name domain : List Char, '@' ∉ name → name.length ≤ 1 →
      mask_email (.vStr (name ++ '@' :: domain)) = .vStr ('*' :: '@' :: domain)) ∧
    (∀ s : List Char, '@' ∉ s → mask_email (.vStr s) = .vStr s) := by
  refine ⟨?_, ?_, ?_⟩
  · intro name domain h hlen
    rw [mask_email_split name domain h, if_pos (by omega)]
  · intro name domain h hlen
    rw [mask_email_split name domain h, if_neg (by omega)]
    simp
  · intro s h
    simp only [mask_email]
    rw [if_neg (by
      intro hany
      rw [List.any_eq_true] at hany
      obtain ⟨c, hc, hEq⟩ := hany
      exact h ((show c = '@' by simpa using hEq) ▸ hc))]

theorem c1_witness :
    ('@' ∉ "jo".toList ∧ 2 ≤ "jo".toList.length ∧
      mask_email (.vStr ("jo".toList ++ '@' :: "x.com".toList)) =
        .vStr ("jo".toList.take 1 ++ "***".toList ++ '@' :: "x.com".toList)) ∧
    ('@' ∉ ("a".toList) ∧ "a".toList.length ≤ 1 ∧
      mask_email (.vStr ("a".toList ++ '@' :: "x.com".toList)) = .vStr ('*' :: '@' :: "x.com".toList)) ∧
    ('@' ∉ "plain".toList ∧ mask_email (.vStr "plain".toList) = .vStr "plain".toList) :=
  ⟨⟨by decide, by decide, c1_theorem.1 "jo".toList "x.com".toList (by decide) (by decide)⟩,
   ⟨by decide, by decide, c1_theorem.2.1 "a".toList "x.com".toList (by decide) (by decide)⟩,
   ⟨by decide, c1_theorem.2.2 "plain".toList (by decide)⟩⟩

/-- Claim C9: a single-character local part is replaced by a bare
asterisk with the domain kept, and the first-char-plus-three-asterisks
form arises exactly when the local part has length at least two. -/
theorem c9_theorem :
    (∀ (c : Char) (domain : List Char), c ≠ '@' →
      mask_email (.vStr (c :: '@' :: domain)) = .vStr ('*' :: '@' :: domain)) ∧
    (∀ name domain : List Char, '@' ∉ name → 2 ≤ name.length →
      mask_email (.vStr (name ++ '@' :: domain)) =
        .vStr (name.take 1 ++ "***".toList ++ '@' :: domain)) := by
  constructor
  · intro c domain hc
    have h : '@' ∉ [c] := by
      intro hm
      rcases List.mem_singleton.mp hm with hEq
      exact hc hEq.symm
    have := mask_email_split [c] domain h
    simpa using this
  · intro name domain h hlen
    rw [mask_email_split name domain h, if_pos (by omega)]

theorem c9_witness :
    (('j' : Char) ≠ '@' ∧
      mask_email (.vStr ('j' :: '@' :: "x.com".toList)) = .vStr ('*' :: '@' :: "x.com".toList)) ∧
    ('@' ∉ "jo".toList ∧ 2 ≤ "jo".toList.length ∧
      mask_email (.vStr ("jo".toList ++ '@' :: "x.com".toList)) =
        .vStr ("jo".toList.take 1 ++ "***".toList ++ '@' :: "x.com".toList)) :=
  ⟨⟨by decide, c9_theorem.1 'j' "x.com".toList (by decide)⟩,
   ⟨by decide, by decide, c9_theorem.2 "jo".toList "x.com".toList (by decide) (by decide)⟩⟩

/-! ### Field-masker totality and non-string handling (claim C6) -/

/-- Claim C6 is false on the code: the phone and credit-card maskers do
not return non-string input unchanged — they coerce it with `str()` and
mask the digits, so `None` becomes the placeholder string. -/
theorem c6_counterexample :
    mask_phone Value.vNone = Value.vStr "[REDACTED]".toList ∧
    mask_phone Value.vNone ≠ Value.vNone ∧
    mask_credit_card Value.vNone = Value.vStr "[REDACTED CC]".toList ∧
    mask_credit_card Value.vNone ≠ Value.vNone := by
  refine ⟨by decide, by decide, by decide, by decide⟩

/-- Claim C6 (amended): every field masker is total — it returns either
the input value or a string (a masked rendering or a category-specific
placeholder) and never raises.  The email, address, and IP maskers and
the SSN text redactor return non-string values unchanged; the phone and
credit-card maskers instead coerce any value to its string rendering
and mask its digits (placeholder when fewer than four digits remain),
the DOB masker returns a rendering or its placeholder, and the name
masker coerces through `str()` — so non-string input is not returned
unchanged by those. -/
theorem c6_theorem :
    (∀ v : Value, isStrV v = false →
      mask_email v = v ∧ mask_address v = v ∧ mask_ip v = v ∧
      redact_ssn_in_text v = v) ∧
    (∀ v : Value,
      mask_phone v = .vStr ("***-***-".toList ++ lastN 4 ((pyStr v).filter Char.isDigit)) ∨
      mask_phone v = .vStr "[REDACTED]".toList) ∧
    (∀ v : Value,
      mask_credit_card v = .vStr ("**** **** **** ".toList ++ lastN 4 ((pyStr v).filter Char.isDigit)) ∨
      mask_credit_card v = .vStr "[REDACTED CC]".toList) ∧
    (∀ (parse : Value → Option (Nat × Nat)) (v : Value),
      mask_dob parse v = .vStr "[REDACTED DOB]".toList ∨
      ∃ m d, parse v = some (m, d) ∧
        mask_dob parse v = .vStr ("****-".toList ++ pad2 m ++ '-' :: pad2 d)) ∧
    (∀ v : Value, ∃ s, mask_name v = .vStr s) ∧
    mask_phone Value.vNone = .vStr "[REDACTED]".toList ∧
    mask_credit_card Value.vNone = .vStr "[REDACTED CC]".toList := by
  refine ⟨?_, ?_, ?_, ?_, ?_, by decide, by decide⟩
  · intro v hv
    cases v with
    | vStr s => simp [isStrV] at hv
    | vInt n => exact ⟨rfl, rfl, rfl, rfl⟩
    | vNone => exact ⟨rfl, rfl, rfl, rfl⟩
    | vNan => exact ⟨rfl, rfl, rfl, rfl⟩
  · intro v
    by_cases h : 4 ≤ ((pyStr v).filter Char.isDigit).length
    · left; simp [mask_phone, h]
    · right; simp [mask_phone, h]
  · intro v
    by_cases h : 4 ≤ ((pyStr v).filter Char.isDigit).length
    · left; simp [mask_credit_card, h]
    · right; simp [mask_credit_card, h]
  · intro parse v
    cases hp : parse v with
    | none => left; simp [mask_dob, hp]
    | some md => right; exact ⟨md.1, md.2, by simp [hp], by simp [mask_dob, hp]⟩
  · intro v
    by_cases h : (pyStr v).length > 0
    · exact ⟨(pyStr v).take 1 ++ "***".toList, by simp [mask_name, h]⟩
    · exact ⟨pyStr v, by simp [mask_name, h]⟩

theorem c6_witness :
    (isStrV Value.vNan = false ∧
      mask_email Value.vNan = Value.vNan ∧ mask_address Value.vNan = Value.vNan ∧
      mask_ip Value.vNan = Value.vNan ∧ redact_ssn_in_text Value.vNan = Value.vNan) ∧
    (mask_phone (Value.vInt 5551234567) =
        .vStr ("***-***-".toList ++ lastN 4 ((pyStr (Value.vInt 5551234567)).filter Char.isDigit)) ∨
      mask_phone (Value.vInt 5551234567) = .vStr "[REDACTED]".toList) ∧
    (mask_dob (fun _ => none) Value.vNone = .vStr "[REDACTED DOB]".toList ∨
      ∃ m d, (fun (_ : Value) => (none : Option (Nat × Nat))) Value.vNone = some (m, d) ∧
        mask_dob (fun _ => none) Value.vNone = .vStr ("****-".toList ++ pad2 m ++ '-' :: pad2 d)) :=
  ⟨⟨by decide, c6_theorem.1 Value.vNan (by decide)⟩,
   c6_theorem.2.1 (Value.vInt 5551234567),
   c6_theorem.2.2.2.1 (fun _ => none) Value.vNone⟩

/-! ### Fail-open LLM redaction client (claim C3) -/

/-- Claim C3: empty or non-string input is returned unchanged without
invoking the service (the boolean component records invocation), and
whenever the service call errors the original input is returned. -/
theorem c3_theorem :
    (∀ (oracle : List Char → Except Unit (List Char)) (v : Value), isStrV v = false →
      redact_with_bedrock oracle v = (v, false)) ∧
    (∀ (oracle : List Char → Except Unit (List Char)) (s : List Char), pyStrip s = [] →
      redact_with_bedrock oracle (.vStr s) = (.vStr s, false)) ∧
    (∀ (oracle : List Char → Except Unit (List Char)) (s : List Char) (e : Unit),
      oracle (bedrockPrompt s) = .error e →
      (redact_with_bedrock oracle (.vStr s)).1 = .vStr s) ∧
    (∀ (oracle : List Char → Except Unit (List Char)) (v : Value),
      (∀ p, oracle p = .error ()) → (redact_with_bedrock oracle v).1 = v) := by
  refine ⟨?_, ?_, ?_, ?_⟩
  · intro oracle v hv
    cases v with
    | vStr s => simp [isStrV] at hv
    | vInt n => rfl
    | vNone => rfl
    | vNan => rfl
  · intro oracle s hs
    simp [redact_with_bedrock, hs]
  · intro oracle s e he
    by_cases hs : pyStrip s = []
    · simp [redact_with_bedrock, hs]
    · simp [redact_with_bedrock, hs, he]
  · intro oracle v h
    cases v with
    | vStr s =>
      by_cases hs : pyStrip s = []
      · simp [redact_with_bedrock, hs]
      · simp [redact_with_bedrock, hs, h (bedrockPrompt s)]
    | vInt n => rfl
    | vNone => rfl
    | vNan => rfl

theorem c3_witness :
    (isStrV Value.vNone = false ∧
      redact_with_bedrock (fun _ => .ok "SHOULD NOT RUN".toList) Value.vNone = (Value.vNone, false)) ∧
    (pyStrip "   ".toList = [] ∧
      redact_with_bedrock (fun _ => .ok "SHOULD NOT RUN".toList) (.vStr "   ".toList) =
        (.vStr "   ".toList, false)) ∧
    ((fun (_ : List Char) => (Except.error () : Except Unit (List Char))) (bedrockPrompt "call me".toList) = .error () ∧
      (redact_with_bedrock (fun _ => .error ()) (.vStr "call me".toList)).1 = .vStr "call me".toList) :=
  ⟨⟨by decide, c3_theorem.1 (fun _ => .ok "SHOULD NOT RUN".toList) Value.vNone (by decide)⟩,
   ⟨by decide, c3_theorem.2.1 (fun _ => .ok "SHOULD NOT RUN".toList) "   ".toList (by decide)⟩,
   ⟨rfl, c3_theorem.2.2.1 (fun _ => .error ()) "call me".toList () rfl⟩⟩

/-! ### Shape preservation of the redaction pass (claim C2) -/

theorem redactStep_fst (parse : Value → Option (Nat × Nat))
    (oracle : List Char → Except Unit (List Char)) (df : Table) (col : List Char) :
    (redactStep parse oracle df col).map Prod.fst = df.map Prod.fst := by
  unfold redactStep
  rw [List.map_map]
  apply List.map_congr_left
  intro e _
  by_cases h : e.1 = col <;> simp [h]

theorem redactStep_lengths (parse : Value → Option (Nat × Nat))
    (oracle : List Char → Except Unit (List Char)) (df : Table) (col : List Char) :
    (redactStep parse oracle df col).map (fun e => e.2.length) =
      df.map (fun e => e.2.length) := by
  unfold redactStep
  rw [List.map_map]
  apply List.map_congr_left
  intro e _
  by_cases h : e.1 = col <;> simp [h]

theorem foldl_redactStep_fst (parse : Value → Option (Nat × Nat))
    (oracle : List Char → Except Unit (List Char)) :
    ∀ (names : List (List Char)) (df : Table),
      (names.foldl (redactStep parse oracle) df).map Prod.fst = df.map Prod.fst := by
  intro names
  induction names with
  | nil => intro df; rfl
  | cons n ns ih =>
    intro df
    rw [List.foldl_cons, ih (redactStep parse oracle df n), redactStep_fst]

theorem foldl_redactStep_lengths (parse : Value → Option (Nat × Nat))
    (oracle : List Char → Except Unit (List Char)) :
    ∀ (names : List (List Char)) (df : Table),
      (names.foldl (redactStep parse oracle) df).map (fun e => e.2.length) =
        df.map (fun e => e.2.length) := by
  intro names
  induction names with
  | nil => intro df; rfl
  | cons n ns ih =>
    intro df
    rw [List.foldl_cons, ih (redactStep parse oracle df n), redactStep_lengths]

/-- The column loop on pairwise-distinct column labels masks each column
exactly once, elementwise. -/
theorem foldl_redactStep_nodup (parse : Value → Option (Nat × Nat))
    (oracle : List Char → Except Unit (List Char)) :
    ∀ (names : List (List Char)) (df : Table), names.Nodup →
      names.foldl (redactStep parse oracle) df =
        df.map (fun e =>
          if e.1 ∈ names then (e.1, e.2.map (maskCell parse oracle (toLowerL e.1))) else e) := by
  intro names
  induction names with
  | nil =>
    intro df _
    simp
  | cons n ns ih =>
    intro df hnd
    have hn : n ∉ ns := (List.nodup_cons.mp hnd).1
    have hns : ns.Nodup := (List.nodup_cons.mp hnd).2
    rw [List.foldl_cons, ih (redactStep parse oracle df n) hns]
    unfold redactStep
    rw [List.map_map]
    apply List.map_congr_left
    intro e _
    by_cases he : e.1 = n
    · subst he
      simp [hn]
    · by_cases hmem : e.1 ∈ ns <;> simp [he, hmem]

/-- Claim C2: one redaction pass preserves the list of column names (in
order, hence the column count and order), preserves every column's cell
count (hence the row count and per-cell order), and — on tables whose
column labels are pairwise distinct — only rewrites each cell through
the per-column masking function. -/
theorem c2_theorem :
    (∀ (parse : Value → Option (Nat × Nat)) (oracle : List Char → Except Unit (List Char))
      (df : Table), (redact_pii parse oracle df).map Prod.fst = df.map Prod.fst) ∧
    (∀ (parse : Value → Option (Nat × Nat)) (oracle : List Char → Except Unit (List Char))
      (df : Table),
      (redact_pii parse oracle df).map (fun e => e.2.length) = df.map (fun e => e.2.length)) ∧
    (∀ (parse : Value → Option (Nat × Nat)) (oracle : List Char → Except Unit (List Char))
      (df : Table), (df.map Prod.fst).Nodup →
      redact_pii parse oracle df =
        df.map (fun e => (e.1, e.2.map (maskCell parse oracle (toLowerL e.1))))) := by
  refine ⟨?_, ?_, ?_⟩
  · intro parse oracle df
    exact foldl_redactStep_fst parse oracle (df.map Prod.fst) df
  · intro parse oracle df
    exact foldl_redactStep_lengths parse oracle (df.map Prod.fst) df
  · intro parse oracle df hnd
    rw [redact_pii, foldl_redactStep_nodup parse oracle (df.map Prod.fst) df hnd]
    apply List.map_congr_left
    intro e he
    rw [if_pos (List.mem_map_of_mem Prod.fst he)]

theorem c2_witness :
    ((([("email".toList, [Value.vStr "a@b.com".toList, Value.vNone]),
        ("id".toList, [Value.vInt 1, Value.vInt 2])] : Table).map Prod.fst).Nodup ∧
     redact_pii (fun _ => none) (fun _ => .error ())
         [("email".toList, [Value.vStr "a@b.com".toList, Value.vNone]),
          ("id".toList, [Value.vInt 1, Value.vInt 2])] =
       ([("email".toList, [Value.vStr "a@b.com".toList, Value.vNone]),
         ("id".toList, [Value.vInt 1, Value.vInt 2])] : Table).map
         (fun e => (e.1, e.2.map (maskCell (fun _ => none) (fun _ => .error ()) (toLowerL e.1))))) :=
  ⟨by decide,
   c2_theorem.2.2 (fun _ => none) (fun _ => .error ())
     [("email".toList, [Value.vStr "a@b.com".toList, Value.vNone]),
      ("id".toList, [Value.vInt 1, Value.vInt 2])] (by decide)⟩

/-! ### The pass is in place (claim C10) -/

theorem storeMap_comp (r : Nat) (f g : Table → Table) (st : Store) :
    storeMap r f (storeMap r g st) = storeMap r (f ∘ g) st := by
  funext r'
  unfold storeMap
  by_cases h : r' = r <;> simp [h, Option.map_map]

theorem storeMap_id_eq (r : Nat) (st : Store) :
    storeMap r (fun t => t) st = st := by
  funext r'
  unfold storeMap
  by_cases h : r' = r <;> simp [h]

theorem foldl_storeMap (parse : Value → Option (Nat × Nat))
    (oracle : List Char → Except Unit (List Char)) (r : Nat) :
    ∀ (names : List (List Char)) (st : Store),
      names.foldl (fun s col => storeMap r (fun t => redactStep parse oracle t col) s) st =
        storeMap r (fun t => names.foldl (redactStep parse oracle) t) st := by
  intro names
  induction names with
  | nil => intro st; exact (storeMap_id_eq r st).symm
  | cons n ns ih =>
    intro st
    rw [List.foldl_cons, ih, storeMap_comp]
    rfl

/-- Claim C10: the redaction pass run on a reference returns the same
reference, afterwards that reference holds exactly the redacted table
(so no unredacted copy remains observable through the argument), and
every other reference is untouched. -/
theorem c10_theorem (parse : Value → Option (Nat × Nat))
    (oracle : List Char → Except Unit (List Char)) (r : Nat) (st : Store) (df : Table)
    (hst : st r = some df) :
    (redact_pii_ref parse oracle r st).1 = r ∧
    (redact_pii_ref parse oracle r st).2 r = some (redact_pii parse oracle df) ∧
    (∀ r', r' ≠ r → (redact_pii_ref parse oracle r st).2 r' = st r') := by
  unfold redact_pii_ref
  rw [hst]
  refine ⟨rfl, ?_, ?_⟩
  · show ((df.map Prod.fst).foldl
      (fun s col => storeMap r (fun t => redactStep parse oracle t col) s) st) r =
        some (redact_pii parse oracle df)
    rw [foldl_storeMap]
    unfold storeMap
    rw [if_pos rfl, hst]
    rfl
  · intro r' hr'
    show ((df.map Prod.fst).foldl
      (fun s col => storeMap r (fun t => redactStep parse oracle t col) s) st) r' = st r'
    rw [foldl_storeMap]
    unfold storeMap
    rw [if_neg hr']

theorem c10_witness :
    ((fun n => if n = 0 then some ([("ssn".toList, [Value.vStr "123-45-6789".toList])] : Table)
        else none) : Store) 0 =
      some ([("ssn".toList, [Value.vStr "123-45-6789".toList])] : Table) ∧
    (redact_pii_ref (fun _ => none) (fun _ => .error ()) 0
      (fun n => if n = 0 then some ([("ssn".toList, [Value.vStr "123-45-6789".toList])] : Table)
        else none)).1 = 0 ∧
    (redact_pii_ref (fun _ => none) (fun _ => .error ()) 0
      (fun n => if n = 0 then some ([("ssn".toList, [Value.vStr "123-45-6789".toList])] : Table)
        else none)).2 0 =
      some (redact_pii (fun _ => none) (fun _ => .error ())
        [("ssn".toList, [Value.vStr "123-45-6789".toList])]) :=
  ⟨rfl,
   (c10_theorem (fun _ => none) (fun _ => .error ()) 0 _
     [("ssn".toList, [Value.vStr "123-45-6789".toList])] rfl).1,
   (c10_theorem (fun _ => none) (fun _ => .error ()) 0 _
     [("ssn".toList, [Value.vStr "123-45-6789".toList])] rfl).2.1⟩

/-! ### Tolerant JSON extraction (claim C4) -/

/-- Claim C4: extraction returns a direct parse when it succeeds; when
it fails, extraction parses the normalized first-brace-to-last-brace
slice; when both stages fail (slice present but unparsable) or no brace
pair exists at all, extraction yields no result; the spec's example (in
both its plain-quote and escaped-quote readings) extracts the embedded
schema object; and the caller substitutes the fixed default schema when
extraction yields nothing. -/
theorem c4_theorem :
    (∀ (s : List Char) (v : Json), jsonLoads (pyStrip s) = some v →
      clean_json_response s = some v) ∧
    (∀ (s t : List Char) (v : Json), jsonLoads (pyStrip s) = none →
      sliceNorm (pyStrip s) = some t → jsonLoads t = some v →
      clean_json_response s = some v) ∧
    (∀ (s t : List Char), jsonLoads (pyStrip s) = none →
      sliceNorm (pyStrip s) = some t → jsonLoads t = none →
      clean_json_response s = none) ∧
    (∀ s : List Char, jsonLoads (pyStrip s) = none → sliceNorm (pyStrip s) = none →
      clean_json_response s = none) ∧
    clean_json_response exampleRaw1 = some examplePII ∧
    clean_json_response exampleRaw2 = some examplePII ∧
    clean_json_response "\x7bgarbage\x7d".toList = none ∧
    clean_json_response "no json here".toList = none ∧
    pii_analysis_of "\x7bgarbage\x7d".toList = default_schema ∧
    pii_analysis_of "no json here".toList = default_schema := by
  refine ⟨?_, ?_, ?_, ?_, rfl, rfl, rfl, rfl, rfl, rfl⟩
  · intro s v h
    simp [clean_json_response, h]
  · intro s t v h1 h2 h3
    simp [clean_json_response, h1, h2, h3]
  · intro s t h1 h2 h3
    simp [clean_json_response, h1, h2, h3]
  · intro s h1 h2
    simp [clean_json_response, h1, h2]

theorem c4_witness :
    (jsonLoads (pyStrip "42".toList) = some (Json.num 42) ∧
      clean_json_response "42".toList = some (Json.num 42)) ∧
    (jsonLoads (pyStrip exampleRaw1) = none ∧
      sliceNorm (pyStrip exampleRaw1) =
        some "\x7b\"pii_columns\":\x7b\"EMAIL\":[\"e\"]\x7d\x7d".toList ∧
      jsonLoads "\x7b\"pii_columns\":\x7b\"EMAIL\":[\"e\"]\x7d\x7d".toList = some examplePII ∧
      clean_json_response exampleRaw1 = some examplePII) ∧
    (jsonLoads (pyStrip "\x7bgarbage\x7d".toList) = none ∧
      sliceNorm (pyStrip "\x7bgarbage\x7d".toList) = some "\x7bgarbage\x7d".toList ∧
      jsonLoads "\x7bgarbage\x7d".toList = none ∧
      clean_json_response "\x7bgarbage\x7d".toList = none) ∧
    (jsonLoads (pyStrip "no json here".toList) = none ∧
      sliceNorm (pyStrip "no json here".toList) = none ∧
      clean_json_response "no json here".toList = none) :=
  ⟨⟨rfl, c4_theorem.1 "42".toList (Json.num 42) rfl⟩,
   ⟨rfl, rfl, rfl,
    c4_theorem.2.1 exampleRaw1 "\x7b\"pii_columns\":\x7b\"EMAIL\":[\"e\"]\x7d\x7d".toList
      examplePII rfl rfl rfl⟩,
   ⟨rfl, rfl, rfl,
    c4_theorem.2.2.1 "\x7bgarbage\x7d".toList "\x7bgarbage\x7d".toList rfl rfl rfl⟩,
   ⟨rfl, rfl, c4_theorem.2.2.2.1 "no json here".toList rfl rfl⟩⟩

/-! ### Streaming assembly (claim C5) -/

theorem foldl_stepChunk (l : List (Option (List Char))) :
    ∀ acc : List Char, l.foldl stepChunk acc = acc ++ l.foldl stepChunk [] := by
  induction l with
  | nil => intro acc; simp
  | cons ev t ih =>
    intro acc
    rw [List.foldl_cons, List.foldl_cons, ih (stepChunk acc ev), ih (stepChunk [] ev)]
    have hstep : stepChunk acc ev = acc ++ stepChunk [] ev := by
      cases ev with
      | none => simp [stepChunk]
      | some b => cases h : chunkText b <;> simp [stepChunk, h]
    rw [hstep, List.append_assoc]

/-- Claim C5: the assembler concatenates the delta texts — the spec's
fragment sequence assembles to `"abcd"`; a fragment with no payload or
whose payload parses to no textual content delta (other event kinds,
parse errors) is skipped without disturbing the rest; a fragment
carrying a delta appends its text after everything already
accumulated; and a bodyless response assembles to the empty text. -/
theorem c5_theorem :
    process_bedrock_response (some [some exampleFrag1, some exampleFrag2, some exampleFrag3]) =
      "abcd".toList ∧
    (∀ pre post : List (Option (List Char)),
      process_bedrock_response (some (pre ++ none :: post)) =
        process_bedrock_response (some (pre ++ post))) ∧
    (∀ (pre post : List (Option (List Char))) (b : List Char), chunkText b = none →
      process_bedrock_response (some (pre ++ some b :: post)) =
        process_bedrock_response (some (pre ++ post))) ∧
    (∀ (pre : List (Option (List Char))) (b t : List Char), chunkText b = some t →
      process_bedrock_response (some (pre ++ [some b])) =
        process_bedrock_response (some pre) ++ t) ∧
    process_bedrock_response none = [] := by
  refine ⟨rfl, ?_, ?_, ?_, rfl⟩
  · intro pre post
    simp only [process_bedrock_response, List.foldl_append, List.foldl_cons]
    rw [show stepChunk (pre.foldl stepChunk []) none = pre.foldl stepChunk [] from rfl]
  · intro pre post b h
    simp only [process_bedrock_response, List.foldl_append, List.foldl_cons]
    rw [show stepChunk (pre.foldl stepChunk []) (some b) = pre.foldl stepChunk [] by
      simp [stepChunk, h]]
  · intro pre b t h
    simp only [process_bedrock_response, List.foldl_append, List.foldl_cons, List.foldl_nil]
    simp [stepChunk, h]

theorem c5_witness :
    (chunkText "garbage".toList = none ∧
      process_bedrock_response (some ([some exampleFrag1] ++ some "garbage".toList :: [])) =
        process_bedrock_response (some ([some exampleFrag1] ++ []))) ∧
    (chunkText exampleFrag3 = some "cd".toList ∧
      process_bedrock_response (some ([some exampleFrag1] ++ [some exampleFrag3])) =
        process_bedrock_response (some [some exampleFrag1]) ++ "cd".toList) :=
  ⟨⟨rfl, c5_theorem.2.2.1 [some exampleFrag1] [] "garbage".toList rfl⟩,
   ⟨rfl, c5_theorem.2.2.2.1 [some exampleFrag1] exampleFrag3 "cd".toList rfl⟩⟩

/-! ### Empty stream is a terminal failure of the discovery call (claim C7) -/

/-- Claim C7: when every stage before stream consumption succeeds but
the finalized accumulator is empty, the discovery handler returns the
500 failure carrying the (empty) accumulated raw text — not a schema
result; failures before the stream is consumed carry no raw text. -/
theorem c7_theorem :
    (∀ (t c : List Char) (resp : Option (List (Option (List Char)))),
      c ≠ [] → process_bedrock_response resp = [] →
      lambda_handler_discovery (.ok t) (.ok c) (.ok resp) =
        ⟨500, .failure "Empty response from Bedrock".toList (some [])⟩) ∧
    (∀ (e : List Char) (cr : Except (List Char) (List Char))
      (sr : Except (List Char) (Option (List (Option (List Char))))),
      lambda_handler_discovery (.error e) cr sr = ⟨500, .failure e none⟩) := by
  constructor
  · intro t c resp hc hp
    simp [lambda_handler_discovery, hc, hp]
  · intro e cr sr
    rfl

theorem c7_witness :
    (("h".toList ≠ ([] : List Char)) ∧
      process_bedrock_response none = [] ∧
      lambda_handler_discovery (.ok []) (.ok "h".toList) (.ok none) =
        ⟨500, .failure "Empty response from Bedrock".toList (some [])⟩) ∧
    lambda_handler_discovery (.error "boom".toList) (.ok "h".toList) (.ok none) =
      ⟨500, .failure "boom".toList none⟩ :=
  ⟨⟨by decide, rfl, c7_theorem.1 [] "h".toList none (by decide) rfl⟩,
   c7_theorem.2 "boom".toList (.ok "h".toList) (.ok none)⟩

/-! ### Idempotence of the SSN text redactor (claim C8)

Outline: a replaced region contributes the token (which contains no
digit, so no match can start inside it, and whose last character is not
a word character, so the position after it has a boundary), and the
eleven matched characters end in a digit whose following character —
checked by the trailing boundary — is not a word character.  The key
lemma `matchSSN_pass2` shows that a match found in the output of a scan
that started with no boundary was already present in its input, so a
second pass finds nothing new. -/

theorem expectDigit_inv {L R : List Char} (h : expectDigit L = some R) :
    ∃ c, L = c :: R ∧ c.isDigit = true := by
  cases L with
  | nil => simp [expectDigit] at h
  | cons c r =>
    by_cases hc : c.isDigit = true
    · simp [expectDigit, hc] at h
      exact ⟨c, by rw [h], hc⟩
    · simp [expectDigit, hc] at h

theorem expectDash_inv {L R : List Char} (h : expectDash L = some R) :
    L = '-' :: R := by
  cases L with
  | nil => simp [expectDash] at h
  | cons c r =>
    by_cases hc : c = '-'
    · subst hc
      simp [expectDash] at h
      rw [h]
    · simp [expectDash, hc] at h

theorem dropSSN?_inv {L R : List Char} (h : dropSSN? L = some R) :
    ∃ d0 d1 d2 d4 d5 d7 d8 d9 d10,
      L = d0 :: d1 :: d2 :: '-' :: d4 :: d5 :: '-' :: d7 :: d8 :: d9 :: d10 :: R ∧
      d0.isDigit = true ∧ d1.isDigit = true ∧ d2.isDigit = true ∧
      d4.isDigit = true ∧ d5.isDigit = true ∧ d7.isDigit = true ∧
      d8.isDigit = true ∧ d9.isDigit = true ∧ d10.isDigit = true := by
  simp only [dropSSN?, Option.bind_eq_some] at h
  obtain ⟨L1, h1, L2, h2, L3, h3, L4, h4, L5, h5, L6, h6, L7, h7, L8, h8,
    L9, h9, L10, h10, h11⟩ := h
  obtain ⟨d0, e0, hd0⟩ := expectDigit_inv h1
  obtain ⟨d1, e1, hd1⟩ := expectDigit_inv h2
  obtain ⟨d2, e2, hd2⟩ := expectDigit_inv h3
  have e3 := expectDash_inv h4
  obtain ⟨d4, e4, hd4⟩ := expectDigit_inv h5
  obtain ⟨d5, e5, hd5⟩ := expectDigit_inv h6
  have e6 := expectDash_inv h7
  obtain ⟨d7, e7, hd7⟩ := expectDigit_inv h8
  obtain ⟨d8, e8, hd8⟩ := expectDigit_inv h9
  obtain ⟨d9, e9, hd9⟩ := expectDigit_inv h10
  obtain ⟨d10, e10, hd10⟩ := expectDigit_inv h11
  subst e0 e1 e2 e3 e4 e5 e6 e7 e8 e9 e10
  exact ⟨d0, d1, d2, d4, d5, d7, d8, d9, d10, rfl,
    hd0, hd1, hd2, hd4, hd5, hd7, hd8, hd9, hd10⟩

theorem matchSSN_some {L : List Char} (h : matchSSN L = true) :
    ∃ R, dropSSN? L = some R ∧ endBd R = true := by
  unfold matchSSN at h
  cases hd : dropSSN? L with
  | none => rw [hd] at h; exact absurd h (by simp)
  | some R => rw [hd] at h; exact ⟨R, rfl, h⟩

theorem matchSSN_eq_of_drop {L R : List Char} (hd : dropSSN? L = some R) :
    matchSSN L = endBd R := by
  unfold matchSSN
  rw [hd]

theorem matchSSN_nonDigit {c : Char} {T : List Char} (hc : c.isDigit = false) :
    matchSSN (c :: T) = false := by
  simp [matchSSN, dropSSN?, expectDigit, hc]

theorem not_match_of_nonDigit {b : Bool} {c : Char} {T : List Char} (hc : c.isDigit = false) :
    ¬(b = true ∧ matchSSN (c :: T) = true) := by
  rintro ⟨-, hx⟩
  rw [matchSSN_nonDigit hc] at hx
  exact Bool.noConfusion hx

theorem isWordChar_digit {c : Char} (hc : c.isDigit = true) : isWordChar c = true := by
  simp [isWordChar, Char.isAlphanum, hc]

theorem not_word_digit {c : Char} (hc : c.isDigit = true) : (!isWordChar c) = false := by
  rw [isWordChar_digit hc]
  rfl

/-- The scanner copies the head character whenever no replacement starts
at it (either the boundary flag is off or the pattern does not match). -/
theorem redactB_copy {b : Bool} {c : Char} {rest : List Char}
    (h : ¬(b = true ∧ matchSSN (c :: rest) = true)) :
    redactB b (c :: rest) = c :: redactB (!isWordChar c) rest := by
  cases hd : dropSSN? (c :: rest) with
  | none => simp [redactB, hd]
  | some R =>
    have hm := matchSSN_eq_of_drop hd
    have hcond : (b && endBd R) = false := by
      cases b with
      | false => rfl
      | true =>
        have hne : matchSSN (c :: rest) ≠ true := fun hx => h ⟨rfl, hx⟩
        rw [hm] at hne
        simp [Bool.of_not_eq_true hne]
    simp [redactB, hd, hcond]

theorem redactB_copy_nonDigit (b : Bool) (c : Char) (rest : List Char)
    (hc : c.isDigit = false) :
    redactB b (c :: rest) = c :: redactB (!isWordChar c) rest :=
  redactB_copy (not_match_of_nonDigit hc)

/-- `redactB_copy` with explicit arguments, convenient for `rw`. -/
theorem redactB_copyE (b : Bool) (c : Char) (rest : List Char)
    (h : ¬(b = true ∧ matchSSN (c :: rest) = true)) :
    redactB b (c :: rest) = c :: redactB (!isWordChar c) rest :=
  redactB_copy h

/-- The scanner replaces a boundary-anchored match and resumes past it
with the boundary flag off (the last matched character is a digit). -/
theorem redactB_match {c : Char} {rest R : List Char}
    (hd : dropSSN? (c :: rest) = some R) (he : endBd R = true) :
    redactB true (c :: rest) = redactTok ++ redactB false R := by
  obtain ⟨d0, d1, d2, d4, d5, d7, d8, d9, d10, hL, -⟩ := dropSSN?_inv hd
  have hdrop : (c :: rest).drop 11 = R := by rw [hL]; rfl
  simp [redactB, hd, he, hdrop]

theorem endBd_redactB (r : List Char) : endBd (redactB false r) = endBd r := by
  cases r with
  | nil => simp [redactB]
  | cons y t =>
    rw [redactB_copy (by simp)]
    rfl

/-- No match can start inside the replacement token, and the flag after
it is on (its last character is not a word character). -/
theorem redactB_token (b : Bool) (X : List Char) :
    redactB b (redactTok ++ X) = redactTok ++ redactB true X := by
  rw [show redactTok =
    '[' :: 'R' :: 'E' :: 'D' :: 'A' :: 'C' :: 'T' :: 'E' :: 'D' :: ' ' :: 'S' :: 'S' :: 'N' :: ']' :: [] from rfl]
  simp only [List.cons_append, List.nil_append]
  rw [redactB_copy_nonDigit _ '[' _ (by decide)]
  rw [redactB_copy_nonDigit _ 'R' _ (by decide)]
  rw [redactB_copy_nonDigit _ 'E' _ (by decide)]
  rw [redactB_copy_nonDigit _ 'D' _ (by decide)]
  rw [redactB_copy_nonDigit _ 'A' _ (by decide)]
  rw [redactB_copy_nonDigit _ 'C' _ (by decide)]
  rw [redactB_copy_nonDigit _ 'T' _ (by decide)]
  rw [redactB_copy_nonDigit _ 'E' _ (by decide)]
  rw [redactB_copy_nonDigit _ 'D' _ (by decide)]
  rw [redactB_copy_nonDigit _ ' ' _ (by decide)]
  rw [redactB_copy_nonDigit _ 'S' _ (by decide)]
  rw [redactB_copy_nonDigit _ 'S' _ (by decide)]
  rw [redactB_copy_nonDigit _ 'N' _ (by decide)]
  rw [redactB_copy_nonDigit _ ']' _ (by decide)]
  rw [show (!isWordChar ']') = true from by decide]

/-- A match found at a digit-headed position in the output of a
no-boundary scan was already present in the input: the copied characters
coincide, and a replacement cannot have produced any of the eleven
pattern characters (the token holds no digit or dash where one would be
needed). -/
theorem matchSSN_pass2 (c : Char) (rest : List Char) (hc : c.isDigit = true)
    (h : matchSSN (c :: redactB false rest) = true) : matchSSN (c :: rest) = true := by
  obtain ⟨R, hdR, heR⟩ := matchSSN_some h
  obtain ⟨e0, e1, e2, e4, e5, e7, e8, e9, e10, hL,
    hd0, hd1, hd2, hd4, hd5, hd7, hd8, hd9, hd10⟩ := dropSSN?_inv hdR
  injection hL with hc0 hOut
  -- position 1 (digit)
  cases rest with
  | nil => simp [redactB] at hOut
  | cons x0 r0 =>
  rw [redactB_copyE false x0 r0 (by simp)] at hOut
  injection hOut with hx0 hOut
  have hx0d : x0.isDigit = true := by rw [hx0]; exact hd1
  rw [not_word_digit hx0d] at hOut
  -- position 2 (digit)
  cases r0 with
  | nil => simp [redactB] at hOut
  | cons x1 r1 =>
  rw [redactB_copyE false x1 r1 (by simp)] at hOut
  injection hOut with hx1 hOut
  have hx1d : x1.isDigit = true := by rw [hx1]; exact hd2
  rw [not_word_digit hx1d] at hOut
  -- position 3 (dash): afterwards a word boundary holds
  cases r1 with
  | nil => simp [redactB] at hOut
  | cons x2 r2 =>
  rw [redactB_copyE false x2 r2 (by simp)] at hOut
  injection hOut with hx2 hOut
  subst hx2
  rw [show (!isWordChar '-') = true from by decide] at hOut
  -- position 4 (digit, boundary on): a replacement here would put the
  -- token bracket where a digit is required
  cases r2 with
  | nil => simp [redactB] at hOut
  | cons x3 r3 =>
  by_cases hm3 : matchSSN (x3 :: r3) = true
  · obtain ⟨R3, hdR3, heR3⟩ := matchSSN_some hm3
    rw [redactB_match hdR3 heR3] at hOut
    rw [show redactTok =
      '[' :: 'R' :: 'E' :: 'D' :: 'A' :: 'C' :: 'T' :: 'E' :: 'D' :: ' ' :: 'S' :: 'S' :: 'N' :: ']' :: [] from rfl] at hOut
    simp only [List.cons_append] at hOut
    injection hOut with hbr htail3
    rw [← hbr] at hd4
    exact absurd hd4 (by decide)
  · rw [redactB_copyE true x3 r3 (fun hand => hm3 hand.2)] at hOut
    injection hOut with hx3 hOut
    have hx3d : x3.isDigit = true := by rw [hx3]; exact hd4
    rw [not_word_digit hx3d] at hOut
    -- position 5 (digit)
    cases r3 with
    | nil => simp [redactB] at hOut
    | cons x4 r4 =>
    rw [redactB_copyE false x4 r4 (by simp)] at hOut
    injection hOut with hx4 hOut
    have hx4d : x4.isDigit = true := by rw [hx4]; exact hd5
    rw [not_word_digit hx4d] at hOut
    -- position 6 (dash): boundary on again
    cases r4 with
    | nil => simp [redactB] at hOut
    | cons x5 r5 =>
    rw [redactB_copyE false x5 r5 (by simp)] at hOut
    injection hOut with hx5 hOut
    subst hx5
    rw [show (!isWordChar '-') = true from by decide] at hOut
    -- position 7 (digit, boundary on)
    cases r5 with
    | nil => simp [redactB] at hOut
    | cons x6 r6 =>
    by_cases hm6 : matchSSN (x6 :: r6) = true
    · obtain ⟨R6, hdR6, heR6⟩ := matchSSN_some hm6
      rw [redactB_match hdR6 heR6] at hOut
      rw [show redactTok =
        '[' :: 'R' :: 'E' :: 'D' :: 'A' :: 'C' :: 'T' :: 'E' :: 'D' :: ' ' :: 'S' :: 'S' :: 'N' :: ']' :: [] from rfl] at hOut
      simp only [List.cons_append] at hOut
      injection hOut with hbr htail6
      rw [← hbr] at hd7
      exact absurd hd7 (by decide)
    · rw [redactB_copyE true x6 r6 (fun hand => hm6 hand.2)] at hOut
      injection hOut with hx6 hOut
      have hx6d : x6.isDigit = true := by rw [hx6]; exact hd7
      rw [not_word_digit hx6d] at hOut
      -- position 8 (digit)
      cases r6 with
      | nil => simp [redactB] at hOut
      | cons x7 r7 =>
      rw [redactB_copyE false x7 r7 (by simp)] at hOut
      injection hOut with hx7 hOut
      have hx7d : x7.isDigit = true := by rw [hx7]; exact hd8
      rw [not_word_digit hx7d] at hOut
      -- position 9 (digit)
      cases r7 with
      | nil => simp [redactB] at hOut
      | cons x8 r8 =>
      rw [redactB_copyE false x8 r8 (by simp)] at hOut
      injection hOut with hx8 hOut
      have hx8d : x8.isDigit = true := by rw [hx8]; exact hd9
      rw [not_word_digit hx8d] at hOut
      -- position 10 (digit); afterwards the trailing boundary transfers
      cases r8 with
      | nil => simp [redactB] at hOut
      | cons x9 r9 =>
      rw [redactB_copyE false x9 r9 (by simp)] at hOut
      injection hOut with hx9 hOut
      have hx9d : x9.isDigit = true := by rw [hx9]; exact hd10
      rw [not_word_digit hx9d] at hOut
      have hBr : endBd r9 = true := by
        rw [← endBd_redactB r9, hOut]
        exact heR
      simp [matchSSN, dropSSN?, expectDigit, expectDash,
        hc, hx0d, hx1d, hx3d, hx4d, hx6d, hx7d, hx8d, hx9d, hBr]

/-- Scanning the output of a scan changes nothing.  The flag hypothesis
covers the one place the two scans disagree: right after a replaced
region the second pass sees a boundary (the token ends in a non-word
character) where the first pass did not (the matched text ends in a
digit) — harmless because the trailing-boundary check guarantees the
next character is not a digit, so no match can start there anyway. -/
theorem redactB_idem_aux :
    ∀ (n : Nat) (L : List Char) (b2 b : Bool), L.length ≤ n →
      (b2 = true → b = true ∨ endBd L = true) →
      redactB b2 (redactB b L) = redactB b L := by
  intro n
  induction n with
  | zero =>
    intro L b2 b hlen _
    have hnil : L = [] := List.eq_nil_of_length_eq_zero (Nat.le_zero.mp hlen)
    subst hnil
    simp [redactB]
  | succ n ih =>
    intro L b2 b hlen H
    cases L with
    | nil => simp [redactB]
    | cons c rest =>
      by_cases hb : b = true ∧ matchSSN (c :: rest) = true
      · obtain ⟨R, hd, he⟩ := matchSSN_some hb.2
        rw [hb.1, redactB_match hd he, redactB_token]
        congr 1
        have hlen' : R.length ≤ n := by
          obtain ⟨d0, d1, d2, d4, d5, d7, d8, d9, d10, hL, -⟩ := dropSSN?_inv hd
          have h11 : (c :: rest).length = R.length + 11 := by rw [hL]; simp
          simp only [List.length_cons] at h11 hlen
          omega
        exact ih R true false hlen' (fun _ => Or.inr he)
      · rw [redactB_copy hb]
        have hm2 : ¬(b2 = true ∧ matchSSN (c :: redactB (!isWordChar c) rest) = true) := by
          rintro ⟨hb2, hmOut⟩
          rcases H hb2 with hbt | hend
          · have hmf : matchSSN (c :: rest) ≠ true := fun hx => hb ⟨hbt, hx⟩
            by_cases hcd : c.isDigit = true
            · rw [not_word_digit hcd] at hmOut
              exact hmf (matchSSN_pass2 c rest hcd hmOut)
            · rw [matchSSN_nonDigit (Bool.of_not_eq_true hcd)] at hmOut
              exact Bool.noConfusion hmOut
          · have hcw : isWordChar c = false := by
              have : (!isWordChar c) = true := hend
              simp only [Bool.not_eq_true'] at this
              exact this
            have hfd : c.isDigit = false := by
              by_contra hx
              rw [isWordChar_digit (Bool.of_not_eq_false hx)] at hcw
              exact Bool.noConfusion hcw
            rw [matchSSN_nonDigit hfd] at hmOut
            exact Bool.noConfusion hmOut
        rw [redactB_copy hm2]
        congr 1
        have hlen' : rest.length ≤ n := by
          simp only [List.length_cons] at hlen
          omega
        exact ih rest (!isWordChar c) (!isWordChar c) hlen' (fun hx => Or.inl hx)

/-- Claim C8: the SSN text redactor is idempotent — applying it to its
own output returns that output unchanged, for every scalar value. -/
theorem c8_theorem (v : Value) :
    redact_ssn_in_text (redact_ssn_in_text v) = redact_ssn_in_text v := by
  cases v with
  | vStr s =>
    show Value.vStr (redactB true (redactB true s)) = Value.vStr (redactB true s)
    rw [redactB_idem_aux s.length s true true le_rfl (fun _ => Or.inl rfl)]
  | vInt n => rfl
  | vNone => rfl
  | vNan => rfl

end AIR
